import Mathlib

/-!
Verification of the selection/extraction engine of the spritebat Asset
Splitter (src/src/components/AssetSplitter.tsx, with the trim utility from
the compositing module).

Rasters (source image, selection mask, extracted buffers) are embedded as
their alpha channel only: a width, a height and a byte-valued coverage
function.  Every observable behaviour of the engine that the claims touch
(bounds computation, outline tracing, boolean mask composition, alpha
intersection, trimming) reads only the alpha channel, so colour channels
are not tracked.  Canvas 2D compositing on alpha bytes is Porter-Duff with
rounding: source-over `d, s ↦ s + round(d·(255−s)/255)`, destination-out
`d, s ↦ round(d·(255−s)/255)`, destination-in `d, s ↦ round(d·s/255)`.
Axis-aligned `fillRect` at integer coordinates paints full coverage (255)
exactly inside the rectangle and nothing outside.
-/

namespace Splitter

/-- A raster buffer: dimensions plus the per-pixel alpha byte (0..255).
Mirrors the canvases handled by AssetSplitter; a mask is a canvas whose
alpha encodes selection coverage (0 = unselected, >0 = selected). -/
structure Raster where
  w : Nat
  h : Nat
  alpha : Nat → Nat → Nat

/-- An axis-aligned rectangle `{x, y, w, h}` in image-pixel space, used both
for drag rectangles and for the bounding boxes returned by `computeBounds`
and `trimTransparent`. -/
structure Rect where
  x : Int
  y : Int
  w : Int
  h : Int
deriving DecidableEq

/-- Selection combination mode, chosen from modifier keys at pointer-down. -/
inductive SelectionMode where
  | replace
  | add
  | subtract
deriving DecidableEq

/-- The pixel (px, py) lies inside rectangle r (fillRect coverage). -/
def inRect (r : Rect) (px py : Nat) : Prop :=
  r.x ≤ (px : Int) ∧ (px : Int) < r.x + r.w ∧ r.y ≤ (py : Int) ∧ (py : Int) < r.y + r.h

instance (r : Rect) (px py : Nat) : Decidable (inRect r px py) :=
  inferInstanceAs (Decidable (_ ∧ _ ∧ _ ∧ _))

/-- Porter-Duff source-over of coverage s onto destination alpha d. -/
def srcOver (d s : Nat) : Nat := s + (d * (255 - s) + 127) / 255

/-- Porter-Duff destination-out: erase destination where the source covers. -/
def destOut (d s : Nat) : Nat := (d * (255 - s) + 127) / 255

/-- Porter-Duff destination-in: keep destination only where the source
covers (the alpha intersection used by extractThroughMask). -/
def mulAlpha (d s : Nat) : Nat := (d * s + 127) / 255

/-- ctx.clearRect(0, 0, mask.width, mask.height): all alpha to 0. -/
def clearAll (m : Raster) : Raster := ⟨m.w, m.h, fun _ _ => 0⟩

/-- createMask(w, h): a fresh, fully transparent canvas. -/
def createMask (w h : Nat) : Raster := ⟨w, h, fun _ _ => 0⟩

/-- ctx.drawImage(src, 0, 0) onto a destination canvas: source-over copy of
src clipped to its own extent (used on freshly created masks, where it is a
plain copy). -/
def drawImageInto (dst src : Raster) : Raster :=
  ⟨dst.w, dst.h, fun x y => if x < src.w ∧ y < src.h then src.alpha x y else dst.alpha x y⟩

/-- Core of paintBox/paintLasso (AssetSplitter.tsx lines 100-129): clear the
mask when mode is replace, then composite an opaque white shape of the given
coverage with source-over (replace/add) or destination-out (subtract). -/
def applyCov (m : Raster) (cov : Nat → Nat → Nat) (mode : SelectionMode) : Raster :=
  let m1 := if mode = SelectionMode.replace then clearAll m else m
  match mode with
  | SelectionMode.subtract => ⟨m1.w, m1.h, fun x y => destOut (m1.alpha x y) (cov x y)⟩
  | _ => ⟨m1.w, m1.h, fun x y => srcOver (m1.alpha x y) (cov x y)⟩

/-- fillRect coverage of rectangle r: full (255) inside, none outside. -/
def rectCov (r : Rect) (x y : Nat) : Nat := if inRect r x y then 255 else 0

/-- paintBox (AssetSplitter.tsx lines 100-111). -/
def paintBox (m : Raster) (r : Rect) (mode : SelectionMode) : Raster :=
  applyCov m (rectCov r) mode

/-- paintLasso (AssetSplitter.tsx lines 113-129).  The browser's polygon
rasteriser (closePath + fill of the clamped lasso points) is taken as a
parameter `polyCov` giving the coverage of the closed polygon at each pixel;
fewer than 3 points is a no-op before anything is touched. -/
def paintLasso (polyCov : List (Int × Int) → Nat → Nat → Nat)
    (m : Raster) (points : List (Int × Int)) (mode : SelectionMode) : Raster :=
  if points.length < 3 then m else applyCov m (polyCov points) mode

/-- The mask built by onPointerUp for a committed box or handle rectangle
(AssetSplitter.tsx lines 545-552): a fresh mask of the image's size, the
previous mask drawn in first when mode is not replace, then paintBox. -/
def commitBoxMask (W H : Nat) (prev : Option Raster) (r : Rect) (mode : SelectionMode) :
    Raster :=
  let base := createMask W H
  let base2 :=
    if mode ≠ SelectionMode.replace then
      match prev with
      | some pm => drawImageInto base pm
      | none => base
    else base
  paintBox base2 r mode

/-- Pixels the raster marks as selected: alpha > 0, inside its extent. -/
def onSet (m : Raster) : Set (Nat × Nat) :=
  {p | p.1 < m.w ∧ p.2 < m.h ∧ 0 < m.alpha p.1 p.2}

/-- Pixel set of a rectangle. -/
def rectPts (r : Rect) : Set (Nat × Nat) := {p | inRect r p.1 p.2}

/-- Row-major traversal order of a w×h grid, as the nested y/x loops of
computeBounds, trimTransparent and buildMaskOutlinePath visit it. -/
def coordList (w h : Nat) : List (Nat × Nat) :=
  (List.range h).flatMap fun y => (List.range w).map fun x => (x, y)

/-- The loop body's test data[(y*w+x)*4+3] > 0 as a Bool. -/
def onPix (m : Raster) (p : Nat × Nat) : Bool := decide (0 < m.alpha p.1 p.2)

/-- The selected pixels in traversal order. -/
def onList (m : Raster) : List (Nat × Nat) := (coordList m.w m.h).filter (onPix m)

/-- One step of the computeBounds scan: fold the pixel into the running
minX/minY/maxX/maxY (the source's four conditional updates). -/
def minmaxStep (s : Int × Int × Int × Int) (p : Nat × Nat) : Int × Int × Int × Int :=
  (min s.1 p.1, min s.2.1 p.2, max s.2.2.1 p.1, max s.2.2.2 p.2)

/-- The computeBounds pixel scan (AssetSplitter.tsx lines 33-43), starting
from minX = width, minY = height, maxX = maxY = -1. -/
def boundsFold (m : Raster) : Int × Int × Int × Int :=
  (coordList m.w m.h).foldl
    (fun s p => if onPix m p then minmaxStep s p else s)
    ((m.w : Int), (m.h : Int), -1, -1)

/-- computeBounds (AssetSplitter.tsx lines 28-46): tight bounding box of
the selected pixels, or none when maxX stayed at -1. -/
def computeBounds (m : Raster) : Option Rect :=
  let s := boundsFold m
  if s.2.2.1 < 0 then none
  else some ⟨s.1, s.2.1, s.2.2.1 - s.1 + 1, s.2.2.2 - s.2.1 + 1⟩

/-- One step of the trimTransparent scan (compositing module): like
minmaxStep but also raising the found flag. -/
def trimStep (s : Int × Int × Int × Int × Bool) (p : Nat × Nat) :
    Int × Int × Int × Int × Bool :=
  (min s.1 p.1, min s.2.1 p.2, max s.2.2.1 p.1, max s.2.2.2.1 p.2, true)

/-- The trimTransparent pixel scan: minX = width, minY = height,
maxX = maxY = 0, found = false. -/
def trimFold (img : Raster) : Int × Int × Int × Int × Bool :=
  (coordList img.w img.h).foldl
    (fun s p => if onPix img p then trimStep s p else s)
    ((img.w : Int), (img.h : Int), 0, 0, false)

/-- trimTransparent (compositing module, lines 160-185): tight bounding box
of pixels with alpha > 0, or none when nothing was found. -/
def trimTransparent (img : Raster) : Option Rect :=
  let s := trimFold img
  if !s.2.2.2.2 then none
  else some ⟨s.1, s.2.1, s.2.2.1 - s.1 + 1, s.2.2.2.1 - s.2.1 + 1⟩

/-- Specification-side predicate (the spec's words, to compare against the
source's computeBounds): ob is the tight axis-aligned bounding box of the
pixel set S, none exactly when S is empty. -/
def tightFor (ob : Option Rect) (S : Set (Nat × Nat)) : Prop :=
  match ob with
  | none => S = ∅
  | some b =>
      (∀ p ∈ S, b.x ≤ (p.1 : Int) ∧ (p.1 : Int) < b.x + b.w ∧
        b.y ≤ (p.2 : Int) ∧ (p.2 : Int) < b.y + b.h) ∧
      (∃ p ∈ S, (p.1 : Int) = b.x) ∧ (∃ p ∈ S, (p.1 : Int) = b.x + b.w - 1) ∧
      (∃ p ∈ S, (p.2 : Int) = b.y) ∧ (∃ p ∈ S, (p.2 : Int) = b.y + b.h - 1)

/-- A traced outline edge: two endpoints in (possibly rescaled) image-pixel
coordinates, as emitted by path.moveTo/path.lineTo pairs. -/
abbrev Seg := (Rat × Rat) × (Rat × Rat)

/-- The on(x, y) closure of buildMaskOutlinePath: false outside the traced
grid, otherwise alpha > 0. -/
def maskOn (m : Raster) (x y : Int) : Bool :=
  if x < 0 ∨ y < 0 ∨ (m.w : Int) ≤ x ∨ (m.h : Int) ≤ y then false
  else decide (0 < m.alpha x.toNat y.toNat)

/-- The edge segments one on-pixel contributes: one unit edge per side whose
4-neighbor is off or out of bounds, scaled by invScale. -/
def pixelSegs (onf : Int → Int → Bool) (inv : Rat) (x y : Nat) : List Seg :=
  if onf x y then
    (if !onf (x : Int) ((y : Int) - 1) then
      [(((x : Rat) * inv, (y : Rat) * inv), (((x : Rat) + 1) * inv, (y : Rat) * inv))] else []) ++
    (if !onf (x : Int) ((y : Int) + 1) then
      [(((x : Rat) * inv, ((y : Rat) + 1) * inv), (((x : Rat) + 1) * inv, ((y : Rat) + 1) * inv))] else []) ++
    (if !onf ((x : Int) - 1) (y : Int) then
      [(((x : Rat) * inv, (y : Rat) * inv), ((x : Rat) * inv, ((y : Rat) + 1) * inv))] else []) ++
    (if !onf ((x : Int) + 1) (y : Int) then
      [((((x : Rat) + 1) * inv, (y : Rat) * inv), (((x : Rat) + 1) * inv, ((y : Rat) + 1) * inv))] else [])
  else []

/-- The double pixel loop of buildMaskOutlinePath over a W×H grid. -/
def traceSegs (onf : Int → Int → Bool) (W H : Nat) (inv : Rat) : List Seg :=
  (coordList W H).flatMap fun p => pixelSegs onf inv p.1 p.2

/-- The trace-resolution cap MAX_TRACE of buildMaskOutlinePath. -/
def MAX_TRACE : Nat := 512

/-- scale = Math.min(1, MAX_TRACE / Math.max(origW, origH)). -/
def traceScale (m : Raster) : Rat :=
  min 1 ((MAX_TRACE : Rat) / ((max m.w m.h : Nat) : Rat))

/-- buildMaskOutlinePath (AssetSplitter.tsx lines 59-98).  When scale < 1
the source traces a canvas-downsampled copy of the mask (drawImage
resampling, not modelled here, hence none); at scale 1 it traces the mask
itself at full resolution with invScale = 1/scale. -/
def buildMaskOutlinePath (m : Raster) : Option (List Seg) :=
  if traceScale m < 1 then none
  else some (traceSegs (maskOn m) m.w m.h (traceScale m)⁻¹)

/-- drawImage sampling of a raster's alpha at an Int coordinate: transparent
outside the raster's extent. -/
def srcAlphaAt (img : Raster) (x y : Int) : Nat :=
  if 0 ≤ x ∧ 0 ≤ y ∧ x < img.w ∧ y < img.h then img.alpha x.toNat y.toNat else 0

/-- The crop-and-intersect stage of extractThroughMask (AssetSplitter.tsx
lines 184-190): crop the source image to bounds, then destination-in with
the same sub-rectangle of the mask. -/
def cropAlpha (image mask : Raster) (b : Rect) : Raster :=
  ⟨b.w.toNat, b.h.toNat, fun i j =>
    mulAlpha (srcAlphaAt image (b.x + i) (b.y + j)) (srcAlphaAt mask (b.x + i) (b.y + j))⟩

/-- extractThroughMask (AssetSplitter.tsx lines 179-198): crop + intersect,
then trim to the opaque bounding box; the untrimmed crop is returned as-is
when trimTransparent finds nothing. -/
def extractThroughMask (image mask : Raster) (b : Rect) : Raster :=
  let crop := cropAlpha image mask b
  match trimTransparent crop with
  | none => crop
  | some t => ⟨t.w.toNat, t.h.toNat, fun i j => srcAlphaAt crop (t.x + i) (t.y + j)⟩

/-- doExtract (AssetSplitter.tsx lines 565-571): null unless the image, the
selection mask and the selection bounds are all present. -/
def doExtract (image mask : Option Raster) (bounds : Option Rect) : Option Raster :=
  match image, mask, bounds with
  | some img, some m, some b => some (extractThroughMask img m b)
  | _, _, _ => none

/-- The eight compass resize handles. -/
inductive HandleId where
  | nw | n | ne | e | se | s | sw | w
deriving DecidableEq

/-- handleId.includes('w'). -/
def hasW : HandleId → Bool
  | .nw | .sw | .w => true
  | _ => false

/-- handleId.includes('e'). -/
def hasE : HandleId → Bool
  | .ne | .e | .se => true
  | _ => false

/-- handleId.includes('n'). -/
def hasN : HandleId → Bool
  | .nw | .n | .ne => true
  | _ => false

/-- handleId.includes('s'). -/
def hasS : HandleId → Bool
  | .se | .s | .sw => true
  | _ => false

/-- The candidate rectangle of a handle drag (onPointerMove, AssetSplitter.tsx
lines 492-509): adjust the edges named by the handle from origBounds by the
pointer delta, clamp x/y at 0 and width/height to the image, keep it only
when still positive.  This liveDragRect is what onPointerUp commits. -/
def handleMoveRect (W H : Nat) (ob : Rect) (hid : HandleId) (dx dy : Int) : Option Rect :=
  let x1 := if hasW hid then min (ob.x + ob.w - 1) (ob.x + dx) else ob.x
  let w1 := if hasW hid then ob.x + ob.w - x1 else if hasE hid then max 1 (ob.w + dx) else ob.w
  let y1 := if hasN hid then min (ob.y + ob.h - 1) (ob.y + dy) else ob.y
  let h1 := if hasN hid then ob.y + ob.h - y1 else if hasS hid then max 1 (ob.h + dy) else ob.h
  let x2 := max 0 x1
  let y2 := max 0 y1
  let w2 := min w1 ((W : Int) - x2)
  let h2 := min h1 ((H : Int) - y2)
  if 0 < w2 ∧ 0 < h2 then some ⟨x2, y2, w2, h2⟩ else none

/-- clampToImg (AssetSplitter.tsx lines 392-398): clamp a pointer position
per-axis into [0, naturalWidth] × [0, naturalHeight]. -/
def clampToImg (W H : Nat) (x y : Int) : Int × Int :=
  (max 0 (min x W), max 0 (min y H))

/-- One lasso pointer-move (AssetSplitter.tsx lines 484-491): append the
clamped point only if it moved at least 2 image pixels from the last point
on either axis. -/
def lassoStep (W H : Nat) (pts : List (Int × Int)) (ip : Int × Int) : List (Int × Int) :=
  match pts.getLast? with
  | none => pts
  | some lastP =>
      if 2 ≤ |ip.1 - lastP.1| ∨ 2 ≤ |ip.2 - lastP.2| then
        pts ++ [clampToImg W H ip.1 ip.2]
      else pts

/-- A whole lasso drag session: the clamped initial point recorded at
pointer-down (AssetSplitter.tsx line 445) followed by the throttled
pointer-move appends. -/
def lassoSession (W H : Nat) (start : Int × Int) (moves : List (Int × Int)) :
    List (Int × Int) :=
  moves.foldl (lassoStep W H) [clampToImg W H start.1 start.2]

/-- The committed selection state owned by the splitter: mask, derived
bounds, cached outline path and the extracted preview canvas. -/
structure CommitState where
  selectionMask : Option Raster
  selectionBounds : Option Rect
  maskOutline : Option (List Seg)
  extractedCanvas : Option Raster

/-- The ephemeral DragState sum type (AssetSplitter.tsx lines 170-175). -/
inductive DragState where
  | none
  | box (mode : SelectionMode) (startImgX startImgY : Int)
  | lasso (mode : SelectionMode) (points : List (Int × Int))
  | handle (handleId : HandleId) (origBounds : Rect) (startImgX startImgY : Int)
  | pan (startClientX startClientY startScrollLeft startScrollTop : Int)

/-- commitMask (AssetSplitter.tsx lines 513-518): store the new mask,
rebuild the outline path, recompute bounds, drop any extracted canvas. -/
def commitMask (m : Raster) : CommitState :=
  { selectionMask := some m
    selectionBounds := computeBounds m
    maskOutline := buildMaskOutlinePath m
    extractedCanvas := none }

/-- onPointerUp (AssetSplitter.tsx lines 520-554) as a pure step on the
committed state: polyCov is the browser's polygon rasteriser, W×H the image
size, liveRect the live box/handle preview rectangle. -/
def onPointerUp (polyCov : List (Int × Int) → Nat → Nat → Nat) (W H : Nat)
    (st : CommitState) (drag : DragState) (liveRect : Option Rect) : CommitState :=
  match drag with
  | DragState.pan _ _ _ _ => st
  | DragState.none => st
  | DragState.lasso mode pts =>
      if 3 ≤ pts.length then
        let base := createMask W H
        let base2 :=
          if mode ≠ SelectionMode.replace then
            match st.selectionMask with
            | some pm => drawImageInto base pm
            | none => base
          else base
        commitMask (paintLasso polyCov base2 pts mode)
      else st
  | DragState.box mode _ _ =>
      match liveRect with
      | some r => commitMask (commitBoxMask W H st.selectionMask r mode)
      | none => st
  | DragState.handle _ _ _ _ =>
      match liveRect with
      | some r => commitMask (paintBox (createMask W H) r SelectionMode.replace)
      | none => st

/-! ### Basic compositing algebra -/

theorem srcOver_zero_left (s : Nat) : srcOver 0 s = s := by
  simp [srcOver]

theorem srcOver_cov_zero (d : Nat) : srcOver d 0 = d := by
  unfold srcOver
  rw [Nat.sub_zero, Nat.zero_add, Nat.mul_comm, Nat.mul_add_div (by norm_num)]
  norm_num

theorem srcOver_cov_full (d : Nat) : srcOver d 255 = 255 := by
  simp [srcOver]

theorem destOut_cov_full (d : Nat) : destOut d 255 = 0 := by
  simp [destOut]

theorem destOut_cov_zero (d : Nat) : destOut d 0 = d := by
  unfold destOut
  rw [Nat.sub_zero, Nat.mul_comm, Nat.mul_add_div (by norm_num)]
  norm_num

theorem mulAlpha_zero (d : Nat) : mulAlpha d 0 = 0 := by
  simp [mulAlpha]

theorem mulAlpha_full (d : Nat) : mulAlpha d 255 = d := by
  unfold mulAlpha
  rw [Nat.mul_comm, Nat.mul_add_div (by norm_num)]
  norm_num

/-! ### Grid traversal and fold lemmas -/

theorem mem_coordList {w h : Nat} {p : Nat × Nat} :
    p ∈ coordList w h ↔ p.1 < w ∧ p.2 < h := by
  obtain ⟨x, y⟩ := p
  simp only [coordList, List.mem_flatMap, List.mem_map, List.mem_range, Prod.mk.injEq]
  constructor
  · rintro ⟨y', hy', x', hx', hx, hy⟩
    subst hx; subst hy; exact ⟨hx', hy'⟩
  · rintro ⟨hx, hy⟩
    exact ⟨y, hy, x, hx, rfl, rfl⟩

theorem mem_onList {m : Raster} {p : Nat × Nat} :
    p ∈ onList m ↔ p.1 < m.w ∧ p.2 < m.h ∧ 0 < m.alpha p.1 p.2 := by
  simp [onList, List.mem_filter, mem_coordList, onPix, and_assoc]

theorem mem_onSet_iff_mem_onList {m : Raster} {p : Nat × Nat} :
    p ∈ onSet m ↔ p ∈ onList m := by
  rw [mem_onList]; rfl

theorem foldl_if_filter {α κ : Type} (P : κ → Bool) (f : α → κ → α) :
    ∀ (l : List κ) (a : α),
      l.foldl (fun s p => if P p then f s p else s) a = (l.filter P).foldl f a := by
  intro l
  induction l with
  | nil => intro a; rfl
  | cons q l ih =>
    intro a
    by_cases hq : P q <;> simp [List.filter_cons, hq, ih]

theorem foldl_minmaxStep :
    ∀ (l : List (Nat × Nat)) (a b c d : Int),
      l.foldl minmaxStep (a, b, c, d) =
        (l.foldl (fun v p => min v (p.1 : Int)) a,
         l.foldl (fun v p => min v (p.2 : Int)) b,
         l.foldl (fun v p => max v (p.1 : Int)) c,
         l.foldl (fun v p => max v (p.2 : Int)) d) := by
  intro l
  induction l with
  | nil => intro a b c d; rfl
  | cons q l ih => intro a b c d; exact ih _ _ _ _

theorem foldl_trimStep :
    ∀ (l : List (Nat × Nat)) (a b c d : Int) (e : Bool),
      l.foldl trimStep (a, b, c, d, e) =
        (l.foldl (fun v p => min v (p.1 : Int)) a,
         l.foldl (fun v p => min v (p.2 : Int)) b,
         l.foldl (fun v p => max v (p.1 : Int)) c,
         l.foldl (fun v p => max v (p.2 : Int)) d,
         l.foldl (fun _ _ => true) e) := by
  intro l
  induction l with
  | nil => intro a b c d e; rfl
  | cons q l ih => intro a b c d e; exact ih _ _ _ _ _

theorem foldl_const_true :
    ∀ (l : List (Nat × Nat)) (e : Bool),
      l.foldl (fun _ _ => true) e = (e || !l.isEmpty) := by
  intro l
  induction l with
  | nil => intro e; simp
  | cons q l ih => intro e; simp [ih]

theorem foldl_min_le_init {κ : Type} (f : κ → Int) :
    ∀ (l : List κ) (a : Int), l.foldl (fun v p => min v (f p)) a ≤ a := by
  intro l
  induction l with
  | nil => intro a; exact le_refl a
  | cons q l ih =>
    intro a
    exact le_trans (ih (min a (f q))) (min_le_left _ _)

theorem foldl_min_le_mem {κ : Type} (f : κ → Int) :
    ∀ (l : List κ) (a : Int) (p : κ), p ∈ l → l.foldl (fun v p => min v (f p)) a ≤ f p := by
  intro l
  induction l with
  | nil => intro a p hp; cases hp
  | cons q l ih =>
    intro a p hp
    rcases List.mem_cons.mp hp with h | h
    · subst h
      exact le_trans (foldl_min_le_init f l (min a (f p))) (min_le_right _ _)
    · exact ih _ p h

theorem foldl_min_attains {κ : Type} (f : κ → Int) (l : List κ) :
    ∀ a : Int, l.foldl (fun v p => min v (f p)) a = a ∨
      ∃ p ∈ l, l.foldl (fun v p => min v (f p)) a = f p := by
  induction l with
  | nil => intro a; exact Or.inl rfl
  | cons q l ih =>
    intro a
    rcases ih (min a (f q)) with h | ⟨p, hp, h⟩
    · rcases min_cases a (f q) with ⟨he, _⟩ | ⟨he, _⟩
      · exact Or.inl (by rw [List.foldl_cons, h, he])
      · exact Or.inr ⟨q, List.mem_cons_self _ _, by rw [List.foldl_cons, h, he]⟩
    · exact Or.inr ⟨p, List.mem_cons_of_mem _ hp, h⟩

theorem foldl_max_ge_init {κ : Type} (f : κ → Int) :
    ∀ (l : List κ) (a : Int), a ≤ l.foldl (fun v p => max v (f p)) a := by
  intro l
  induction l with
  | nil => intro a; exact le_refl a
  | cons q l ih =>
    intro a
    exact le_trans (le_max_left _ _) (ih (max a (f q)))

theorem foldl_max_ge_mem {κ : Type} (f : κ → Int) :
    ∀ (l : List κ) (a : Int) (p : κ), p ∈ l → f p ≤ l.foldl (fun v p => max v (f p)) a := by
  intro l
  induction l with
  | nil => intro a p hp; cases hp
  | cons q l ih =>
    intro a p hp
    rcases List.mem_cons.mp hp with h | h
    · subst h
      exact le_trans (le_max_right _ _) (foldl_max_ge_init f l (max a (f p)))
    · exact ih _ p h

theorem foldl_max_attains {κ : Type} (f : κ → Int) (l : List κ) :
    ∀ a : Int, l.foldl (fun v p => max v (f p)) a = a ∨
      ∃ p ∈ l, l.foldl (fun v p => max v (f p)) a = f p := by
  induction l with
  | nil => intro a; exact Or.inl rfl
  | cons q l ih =>
    intro a
    rcases ih (max a (f q)) with h | ⟨p, hp, h⟩
    · rcases max_cases a (f q) with ⟨he, _⟩ | ⟨he, _⟩
      · exact Or.inl (by rw [List.foldl_cons, h, he])
      · exact Or.inr ⟨q, List.mem_cons_self _ _, by rw [List.foldl_cons, h, he]⟩
    · exact Or.inr ⟨p, List.mem_cons_of_mem _ hp, h⟩

/-! ### Characterisation of computeBounds and trimTransparent -/

theorem boundsFold_eq (m : Raster) :
    boundsFold m =
      ((onList m).foldl (fun v p => min v (p.1 : Int)) (m.w : Int),
       (onList m).foldl (fun v p => min v (p.2 : Int)) (m.h : Int),
       (onList m).foldl (fun v p => max v (p.1 : Int)) (-1),
       (onList m).foldl (fun v p => max v (p.2 : Int)) (-1)) := by
  unfold boundsFold onList
  rw [foldl_if_filter (onPix m) minmaxStep]
  exact foldl_minmaxStep _ _ _ _ _

theorem onSet_empty_iff (m : Raster) : onSet m = ∅ ↔ onList m = [] := by
  constructor
  · intro h
    rcases hne : onList m with _ | ⟨p, rest⟩
    · rfl
    · exfalso
      have hp : p ∈ onList m := by rw [hne]; exact List.mem_cons_self _ _
      have : p ∈ onSet m := mem_onSet_iff_mem_onList.mpr hp
      rw [h] at this
      exact this
  · intro h
    ext p
    simp only [Set.mem_empty_iff_false, iff_false]
    intro hp
    have := mem_onSet_iff_mem_onList.mp hp
    rw [h] at this
    exact (List.not_mem_nil p) this

/-- Unfolding lemma for computeBounds. -/
theorem computeBounds_eq (m : Raster) :
    computeBounds m =
      if (boundsFold m).2.2.1 < 0 then none
      else some ⟨(boundsFold m).1, (boundsFold m).2.1,
        (boundsFold m).2.2.1 - (boundsFold m).1 + 1,
        (boundsFold m).2.2.2 - (boundsFold m).2.1 + 1⟩ := rfl

/-- Unfolding lemma for trimTransparent. -/
theorem trimTransparent_eq (img : Raster) :
    trimTransparent img =
      if !(trimFold img).2.2.2.2 then none
      else some ⟨(trimFold img).1, (trimFold img).2.1,
        (trimFold img).2.2.1 - (trimFold img).1 + 1,
        (trimFold img).2.2.2.1 - (trimFold img).2.1 + 1⟩ := rfl

/-- computeBounds is none exactly on an all-transparent mask, and otherwise
returns the tight bounding box of the selected pixels. -/
theorem computeBounds_spec (m : Raster) :
    (computeBounds m = none ↔ onSet m = ∅) ∧
    tightFor (computeBounds m) (onSet m) := by
  rcases hl : onList m with _ | ⟨p0, rest⟩
  · have hempty : onSet m = ∅ := (onSet_empty_iff m).mpr hl
    have hcb : computeBounds m = none := by
      rw [computeBounds_eq, boundsFold_eq, hl]
      norm_num
    refine ⟨by simp [hcb, hempty], ?_⟩
    rw [hcb, hempty]
    rfl
  · -- at least one selected pixel
    have hp0 : p0 ∈ onList m := by rw [hl]; exact List.mem_cons_self _ _
    have hp0set : p0 ∈ onSet m := mem_onSet_iff_mem_onList.mpr hp0
    have hp0w : p0.1 < m.w := (mem_onList.mp hp0).1
    have hp0h : p0.2 < m.h := (mem_onList.mp hp0).2.1
    have hmx1p0 : (p0.1 : Int) ≤
        (onList m).foldl (fun v p => max v (p.1 : Int)) (-1) :=
      foldl_max_ge_mem _ _ _ p0 hp0
    have hmx2p0 : (p0.2 : Int) ≤
        (onList m).foldl (fun v p => max v (p.2 : Int)) (-1) :=
      foldl_max_ge_mem _ _ _ p0 hp0
    have hmn1p0 : (onList m).foldl (fun v p => min v (p.1 : Int)) (m.w : Int)
        ≤ (p0.1 : Int) := foldl_min_le_mem _ _ _ p0 hp0
    have hmn2p0 : (onList m).foldl (fun v p => min v (p.2 : Int)) (m.h : Int)
        ≤ (p0.2 : Int) := foldl_min_le_mem _ _ _ p0 hp0
    have hcb : computeBounds m =
        some ⟨(onList m).foldl (fun v p => min v (p.1 : Int)) (m.w : Int),
          (onList m).foldl (fun v p => min v (p.2 : Int)) (m.h : Int),
          (onList m).foldl (fun v p => max v (p.1 : Int)) (-1)
            - (onList m).foldl (fun v p => min v (p.1 : Int)) (m.w : Int) + 1,
          (onList m).foldl (fun v p => max v (p.2 : Int)) (-1)
            - (onList m).foldl (fun v p => min v (p.2 : Int)) (m.h : Int) + 1⟩ := by
      rw [computeBounds_eq, boundsFold_eq]
      dsimp only
      rw [if_neg (by omega)]
    have hnonempty : ¬ onSet m = ∅ := by
      intro h
      rw [h] at hp0set
      exact hp0set
    refine ⟨by simp [hcb, hnonempty], ?_⟩
    rw [hcb]
    simp only [tightFor]
    refine ⟨?_, ?_, ?_, ?_, ?_⟩
    · intro p hp
      have hpl : p ∈ onList m := mem_onSet_iff_mem_onList.mp hp
      have h1 := foldl_min_le_mem (fun p : Nat × Nat => (p.1 : Int)) (onList m) (m.w : Int) p hpl
      have h2 := foldl_min_le_mem (fun p : Nat × Nat => (p.2 : Int)) (onList m) (m.h : Int) p hpl
      have h3 := foldl_max_ge_mem (fun p : Nat × Nat => (p.1 : Int)) (onList m) (-1) p hpl
      have h4 := foldl_max_ge_mem (fun p : Nat × Nat => (p.2 : Int)) (onList m) (-1) p hpl
      dsimp only at h1 h2 h3 h4 ⊢
      omega
    · rcases foldl_min_attains (fun p : Nat × Nat => (p.1 : Int)) (onList m) (m.w : Int)
        with h | ⟨p, hpl, h⟩
      · exfalso
        omega
      · exact ⟨p, mem_onSet_iff_mem_onList.mpr hpl, by omega⟩
    · rcases foldl_max_attains (fun p : Nat × Nat => (p.1 : Int)) (onList m) (-1)
        with h | ⟨p, hpl, h⟩
      · exfalso
        omega
      · exact ⟨p, mem_onSet_iff_mem_onList.mpr hpl, by omega⟩
    · rcases foldl_min_attains (fun p : Nat × Nat => (p.2 : Int)) (onList m) (m.h : Int)
        with h | ⟨p, hpl, h⟩
      · exfalso
        omega
      · exact ⟨p, mem_onSet_iff_mem_onList.mpr hpl, by omega⟩
    · rcases foldl_max_attains (fun p : Nat × Nat => (p.2 : Int)) (onList m) (-1)
        with h | ⟨p, hpl, h⟩
      · exfalso
        omega
      · exact ⟨p, mem_onSet_iff_mem_onList.mpr hpl, by omega⟩

theorem trimFold_found (img : Raster) :
    (trimFold img).2.2.2.2 = !(onList img).isEmpty := by
  unfold trimFold
  rw [foldl_if_filter (onPix img) trimStep]
  have h := foldl_trimStep ((coordList img.w img.h).filter (onPix img))
    (img.w : Int) (img.h : Int) 0 0 false
  rw [h]
  show ((coordList img.w img.h).filter (onPix img)).foldl (fun _ _ => true) false = _
  rw [foldl_const_true]
  rfl

/-- trimTransparent finds nothing exactly when every in-extent pixel is
fully transparent. -/
theorem trimTransparent_none_iff (img : Raster) :
    trimTransparent img = none ↔
      (∀ x < img.w, ∀ y < img.h, img.alpha x y = 0) := by
  have hfound := trimFold_found img
  rw [trimTransparent_eq]
  constructor
  · intro hnone x hx y hy
    by_contra hne
    have hmem : (x, y) ∈ onList img :=
      mem_onList.mpr ⟨hx, hy, Nat.pos_of_ne_zero hne⟩
    have hne' : onList img ≠ [] := by
      intro h
      rw [h] at hmem
      exact (List.not_mem_nil _) hmem
    have htrue : (trimFold img).2.2.2.2 = true := by
      rw [hfound]
      simp [List.isEmpty_iff, hne']
    rw [htrue] at hnone
    simp at hnone
  · intro hall
    have hnil : onList img = [] := by
      rcases h : onList img with _ | ⟨p, rest⟩
      · rfl
      · exfalso
        have hp : p ∈ onList img := by rw [h]; exact List.mem_cons_self _ _
        obtain ⟨h1, h2, h3⟩ := mem_onList.mp hp
        have := hall p.1 h1 p.2 h2
        omega
    have hfalse : (trimFold img).2.2.2.2 = false := by
      rw [hfound, hnil]
      rfl
    rw [hfalse]
    rfl

/-! ### Outline tracer lemmas -/

theorem maskOn_bounds {m : Raster} {x y : Nat} (h : maskOn m (x : Int) (y : Int) = true) :
    x < m.w ∧ y < m.h := by
  unfold maskOn at h
  by_cases hc : (x : Int) < 0 ∨ (y : Int) < 0 ∨ (m.w : Int) ≤ (x : Int) ∨ (m.h : Int) ≤ (y : Int)
  · rw [if_pos hc] at h
    cases h
  · push_neg at hc
    obtain ⟨_, _, h3, h4⟩ := hc
    constructor <;> omega

theorem mem_pixelSegs {onf : Int → Int → Bool} {inv : Rat} {x y : Nat} {s : Seg} :
    s ∈ pixelSegs onf inv x y ↔
      onf (x : Int) (y : Int) = true ∧
      ((onf (x : Int) ((y : Int) - 1) = false ∧
          s = (((x : Rat) * inv, (y : Rat) * inv), (((x : Rat) + 1) * inv, (y : Rat) * inv))) ∨
       (onf (x : Int) ((y : Int) + 1) = false ∧
          s = (((x : Rat) * inv, ((y : Rat) + 1) * inv), (((x : Rat) + 1) * inv, ((y : Rat) + 1) * inv))) ∨
       (onf ((x : Int) - 1) (y : Int) = false ∧
          s = (((x : Rat) * inv, (y : Rat) * inv), ((x : Rat) * inv, ((y : Rat) + 1) * inv))) ∨
       (onf ((x : Int) + 1) (y : Int) = false ∧
          s = ((((x : Rat) + 1) * inv, (y : Rat) * inv), (((x : Rat) + 1) * inv, ((y : Rat) + 1) * inv)))) := by
  unfold pixelSegs
  by_cases h : onf (x : Int) (y : Int) = true
  · simp only [h, if_true, List.mem_append]
    by_cases h1 : onf (x : Int) ((y : Int) - 1) <;>
      by_cases h2 : onf (x : Int) ((y : Int) + 1) <;>
      by_cases h3 : onf ((x : Int) - 1) (y : Int) <;>
      by_cases h4 : onf ((x : Int) + 1) (y : Int) <;>
      simp [h1, h2, h3, h4, or_assoc]
  · simp only [Bool.not_eq_true] at h
    simp [h]

theorem mem_traceSegs {onf : Int → Int → Bool} {W H : Nat} {inv : Rat} {s : Seg} :
    s ∈ traceSegs onf W H inv ↔
      ∃ p : Nat × Nat, p ∈ coordList W H ∧ s ∈ pixelSegs onf inv p.1 p.2 := by
  unfold traceSegs
  exact List.mem_flatMap

/-- At or under the cap, the trace scale is exactly 1. -/
theorem traceScale_eq_one {m : Raster} (hpos : 0 < max m.w m.h)
    (hcap : max m.w m.h ≤ MAX_TRACE) : traceScale m = 1 := by
  unfold traceScale
  have hb : (0 : Rat) < ((max m.w m.h : Nat) : Rat) := by
    exact_mod_cast hpos
  have h1 : (1 : Rat) ≤ (MAX_TRACE : Rat) / ((max m.w m.h : Nat) : Rat) := by
    rw [one_le_div hb]
    exact_mod_cast hcap
  exact min_eq_left h1

/-! ### Mask composition helpers -/

theorem srcOver_pos (d s : Nat) : 0 < srcOver d s ↔ 0 < d ∨ 0 < s := by
  rcases Nat.eq_zero_or_pos s with hs | hs
  · subst hs
    rw [srcOver_cov_zero]
    simp
  · constructor
    · intro _
      exact Or.inr hs
    · intro _
      exact lt_of_lt_of_le hs (Nat.le_add_right _ _)

theorem rectCov_pos (r : Rect) (x y : Nat) : 0 < rectCov r x y ↔ inRect r x y := by
  by_cases h : inRect r x y <;> simp [rectCov, h]

theorem commitBoxMask_w (W H : Nat) (prev : Option Raster) (r : Rect) (mode : SelectionMode) :
    (commitBoxMask W H prev r mode).w = W := by
  cases mode <;> cases prev <;> rfl

theorem commitBoxMask_h (W H : Nat) (prev : Option Raster) (r : Rect) (mode : SelectionMode) :
    (commitBoxMask W H prev r mode).h = H := by
  cases mode <;> cases prev <;> rfl

theorem commitBoxMask_replace_alpha (W H : Nat) (prev : Option Raster) (r : Rect) (x y : Nat) :
    (commitBoxMask W H prev r SelectionMode.replace).alpha x y = rectCov r x y := by
  show srcOver 0 (rectCov r x y) = rectCov r x y
  exact srcOver_zero_left _

theorem commitBoxMask_add_alpha (W H : Nat) (pm : Raster) (r : Rect) (x y : Nat) :
    (commitBoxMask W H (some pm) r SelectionMode.add).alpha x y =
      srcOver (if x < pm.w ∧ y < pm.h then pm.alpha x y else 0) (rectCov r x y) := rfl

theorem paintBox_subtract_alpha (m : Raster) (r : Rect) (x y : Nat) :
    (paintBox m r SelectionMode.subtract).alpha x y =
      destOut (m.alpha x y) (rectCov r x y) := rfl

theorem extractThroughMask_eq (image mask : Raster) (b : Rect) :
    extractThroughMask image mask b =
      match trimTransparent (cropAlpha image mask b) with
      | none => cropAlpha image mask b
      | some t => ⟨t.w.toNat, t.h.toNat, fun i j =>
          srcAlphaAt (cropAlpha image mask b) (t.x + i) (t.y + j)⟩ := rfl

/-! ### Lasso session helpers -/

theorem clampToImg_bounds (W H : Nat) (x y : Int) :
    0 ≤ (clampToImg W H x y).1 ∧ (clampToImg W H x y).1 ≤ (W : Int) ∧
    0 ≤ (clampToImg W H x y).2 ∧ (clampToImg W H x y).2 ≤ (H : Int) := by
  unfold clampToImg
  refine ⟨?_, ?_, ?_, ?_⟩ <;> dsimp only <;> omega

theorem lassoStep_preserves (W H : Nat) (l : List (Int × Int)) (ip : Int × Int)
    (hl : ∀ p ∈ l, 0 ≤ p.1 ∧ p.1 ≤ (W : Int) ∧ 0 ≤ p.2 ∧ p.2 ≤ (H : Int)) :
    ∀ p ∈ lassoStep W H l ip,
      0 ≤ p.1 ∧ p.1 ≤ (W : Int) ∧ 0 ≤ p.2 ∧ p.2 ≤ (H : Int) := by
  intro p hp
  unfold lassoStep at hp
  cases hgl : l.getLast? with
  | none =>
    simp only [hgl] at hp
    exact hl p hp
  | some lastP =>
    simp only [hgl] at hp
    by_cases hc : 2 ≤ |ip.1 - lastP.1| ∨ 2 ≤ |ip.2 - lastP.2|
    · rw [if_pos hc] at hp
      rcases List.mem_append.mp hp with h | h
      · exact hl p h
      · have hpc : p = clampToImg W H ip.1 ip.2 := List.mem_singleton.mp h
        subst hpc
        exact clampToImg_bounds W H ip.1 ip.2
    · rw [if_neg hc] at hp
      exact hl p hp

theorem lasso_foldl_preserves (W H : Nat) (moves : List (Int × Int)) :
    ∀ l : List (Int × Int),
      (∀ p ∈ l, 0 ≤ p.1 ∧ p.1 ≤ (W : Int) ∧ 0 ≤ p.2 ∧ p.2 ≤ (H : Int)) →
      ∀ p ∈ moves.foldl (lassoStep W H) l,
        0 ≤ p.1 ∧ p.1 ≤ (W : Int) ∧ 0 ≤ p.2 ∧ p.2 ≤ (H : Int) := by
  induction moves with
  | nil =>
    intro l hl
    exact hl
  | cons mv moves ih =>
    intro l hl
    exact ih _ (lassoStep_preserves W H l mv hl)

/-! ### Claim theorems -/

/-- Claim C3: painting rectangle A in Replace mode and then rectangle B in
Add mode (each commit drawing the previous mask first, as onPointerUp does)
yields a mask whose on set is exactly the pixel-wise union of A and B, and
the recomputed SelectionBounds is the tight bounding box of that union. -/
theorem replace_then_add_union (W H : Nat) (prev : Option Raster) (A B : Rect)
    (hA3 : A.x + A.w ≤ (W : Int)) (hA4 : A.y + A.h ≤ (H : Int))
    (hB3 : B.x + B.w ≤ (W : Int)) (hB4 : B.y + B.h ≤ (H : Int)) :
    onSet (commitBoxMask W H
        (some (commitBoxMask W H prev A SelectionMode.replace)) B SelectionMode.add)
      = rectPts A ∪ rectPts B ∧
    tightFor (computeBounds (commitBoxMask W H
        (some (commitBoxMask W H prev A SelectionMode.replace)) B SelectionMode.add))
      (rectPts A ∪ rectPts B) := by
  have hset : onSet (commitBoxMask W H
      (some (commitBoxMask W H prev A SelectionMode.replace)) B SelectionMode.add)
      = rectPts A ∪ rectPts B := by
    ext p
    obtain ⟨x, y⟩ := p
    simp only [onSet, Set.mem_setOf_eq, Set.mem_union, rectPts]
    rw [commitBoxMask_w, commitBoxMask_h, commitBoxMask_add_alpha, srcOver_pos, rectCov_pos]
    have halpha : (0 < if x < (commitBoxMask W H prev A SelectionMode.replace).w ∧
        y < (commitBoxMask W H prev A SelectionMode.replace).h then
          (commitBoxMask W H prev A SelectionMode.replace).alpha x y else 0) ↔
        ((x < W ∧ y < H) ∧ inRect A x y) := by
      rw [commitBoxMask_w, commitBoxMask_h]
      by_cases hc : x < W ∧ y < H
      · simp only [hc, if_true, commitBoxMask_replace_alpha, rectCov_pos, true_and]
      · simp [hc]
    rw [halpha]
    unfold inRect
    constructor
    · rintro ⟨hx, hy, h⟩
      rcases h with ⟨_, hA⟩ | hB
      · exact Or.inl hA
      · exact Or.inr hB
    · intro h
      rcases h with hA | hB
      · exact ⟨by omega, by omega, Or.inl ⟨⟨by omega, by omega⟩, hA⟩⟩
      · exact ⟨by omega, by omega, Or.inr hB⟩
  refine ⟨hset, ?_⟩
  have h := (computeBounds_spec (commitBoxMask W H
      (some (commitBoxMask W H prev A SelectionMode.replace)) B SelectionMode.add)).2
  rw [hset] at h
  exact h

theorem replace_then_add_union_witness :
    ((0 : Int) + 2 ≤ (4 : Nat) ∧ (0 : Int) + 2 ≤ (4 : Nat) ∧
      (1 : Int) + 2 ≤ (4 : Nat) ∧ (1 : Int) + 2 ≤ (4 : Nat)) ∧
    (onSet (commitBoxMask 4 4
        (some (commitBoxMask 4 4 none ⟨0, 0, 2, 2⟩ SelectionMode.replace))
        ⟨1, 1, 2, 2⟩ SelectionMode.add)
      = rectPts ⟨0, 0, 2, 2⟩ ∪ rectPts ⟨1, 1, 2, 2⟩ ∧
    tightFor (computeBounds (commitBoxMask 4 4
        (some (commitBoxMask 4 4 none ⟨0, 0, 2, 2⟩ SelectionMode.replace))
        ⟨1, 1, 2, 2⟩ SelectionMode.add))
      (rectPts ⟨0, 0, 2, 2⟩ ∪ rectPts ⟨1, 1, 2, 2⟩)) :=
  ⟨⟨by decide, by decide, by decide, by decide⟩,
    replace_then_add_union 4 4 none ⟨0, 0, 2, 2⟩ ⟨1, 1, 2, 2⟩
      (by decide) (by decide) (by decide) (by decide)⟩

/-- Claim C4: if a mask's on set is the union of a pixel set A and a
rectangle B, compositing B in Subtract mode leaves exactly A minus B
selected, and every pixel outside B keeps its exact coverage byte. -/
theorem subtract_exact_difference (m : Raster) (A : Nat → Nat → Bool) (B : Rect)
    (hU : ∀ x, x < m.w → ∀ y, y < m.h →
      (0 < m.alpha x y ↔ (A x y = true ∨ inRect B x y))) :
    (∀ x, x < m.w → ∀ y, y < m.h →
      (0 < (paintBox m B SelectionMode.subtract).alpha x y ↔
        (A x y = true ∧ ¬ inRect B x y))) ∧
    (∀ x y, ¬ inRect B x y →
      (paintBox m B SelectionMode.subtract).alpha x y = m.alpha x y) := by
  constructor
  · intro x hx y hy
    rw [paintBox_subtract_alpha]
    by_cases hB : inRect B x y
    · simp [rectCov, hB, destOut_cov_full]
    · simp [rectCov, hB, destOut_cov_zero, hU x hx y hy]
  · intro x y hB
    rw [paintBox_subtract_alpha]
    simp [rectCov, hB, destOut_cov_zero]

theorem subtract_exact_difference_witness :
    (∀ x, x < (⟨2, 1, fun x y => if x < 2 ∧ y < 1 then 255 else 0⟩ : Raster).w →
      ∀ y, y < (⟨2, 1, fun x y => if x < 2 ∧ y < 1 then 255 else 0⟩ : Raster).h →
      (0 < (⟨2, 1, fun x y => if x < 2 ∧ y < 1 then 255 else 0⟩ : Raster).alpha x y ↔
        ((fun x y => decide (x = 0 ∧ y = 0)) x y = true ∨ inRect ⟨1, 0, 1, 1⟩ x y))) ∧
    ((∀ x, x < (⟨2, 1, fun x y => if x < 2 ∧ y < 1 then 255 else 0⟩ : Raster).w →
      ∀ y, y < (⟨2, 1, fun x y => if x < 2 ∧ y < 1 then 255 else 0⟩ : Raster).h →
      (0 < (paintBox ⟨2, 1, fun x y => if x < 2 ∧ y < 1 then 255 else 0⟩ ⟨1, 0, 1, 1⟩
          SelectionMode.subtract).alpha x y ↔
        ((fun x y => decide (x = 0 ∧ y = 0)) x y = true ∧ ¬ inRect ⟨1, 0, 1, 1⟩ x y))) ∧
    (∀ x y, ¬ inRect ⟨1, 0, 1, 1⟩ x y →
      (paintBox ⟨2, 1, fun x y => if x < 2 ∧ y < 1 then 255 else 0⟩ ⟨1, 0, 1, 1⟩
          SelectionMode.subtract).alpha x y =
        (⟨2, 1, fun x y => if x < 2 ∧ y < 1 then 255 else 0⟩ : Raster).alpha x y)) :=
  ⟨by decide,
    subtract_exact_difference ⟨2, 1, fun x y => if x < 2 ∧ y < 1 then 255 else 0⟩
      (fun x y => decide (x = 0 ∧ y = 0)) ⟨1, 0, 1, 1⟩ (by decide)⟩

/-- Claim C5: Replace mode first clears the whole mask and then fills the
shape, so committing the same rectangle twice in Replace mode is
byte-identical to committing it once — both for the raw paintBox operation
and for the full commit (fresh mask per commit). -/
theorem replace_idempotent (m : Raster) (W H : Nat) (prev : Option Raster) (r : Rect) :
    paintBox (paintBox m r SelectionMode.replace) r SelectionMode.replace =
      paintBox m r SelectionMode.replace ∧
    commitBoxMask W H (some (commitBoxMask W H prev r SelectionMode.replace)) r
        SelectionMode.replace =
      commitBoxMask W H prev r SelectionMode.replace :=
  ⟨rfl, rfl⟩

/-- Claim C9: a lasso drag that ends with fewer than 3 recorded points is a
no-op at pointer-up: nothing is composited and the committed mask, bounds,
outline and extracted canvas are all left unchanged, for any polygon
rasteriser. -/
theorem lasso_short_noop (polyCov : List (Int × Int) → Nat → Nat → Nat) (W H : Nat)
    (st : CommitState) (mode : SelectionMode) (pts : List (Int × Int))
    (liveRect : Option Rect) (hlen : pts.length < 3) :
    onPointerUp polyCov W H st (DragState.lasso mode pts) liveRect = st := by
  simp only [onPointerUp]
  rw [if_neg (by omega)]

theorem lasso_short_noop_witness :
    ([((0 : Int), (0 : Int))].length < 3) ∧
    onPointerUp (fun _ _ _ => 0) 4 4 ⟨none, none, none, none⟩
      (DragState.lasso SelectionMode.replace [((0 : Int), (0 : Int))]) none =
      ⟨none, none, none, none⟩ :=
  ⟨by decide,
    lasso_short_noop (fun _ _ _ => 0) 4 4 ⟨none, none, none, none⟩
      SelectionMode.replace [((0 : Int), (0 : Int))] none (by decide)⟩

/-- Claim C10: every point a lasso drag session records — the initial
pointer-down point and every throttled pointer-move point — is clamped
per-axis into the inclusive range [0, imageWidth] × [0, imageHeight]. -/
theorem lasso_points_clamped (W H : Nat) (start : Int × Int) (moves : List (Int × Int)) :
    ∀ p ∈ lassoSession W H start moves,
      0 ≤ p.1 ∧ p.1 ≤ (W : Int) ∧ 0 ≤ p.2 ∧ p.2 ≤ (H : Int) := by
  apply lasso_foldl_preserves
  intro p hp
  have hpc : p = clampToImg W H start.1 start.2 := List.mem_singleton.mp hp
  subst hpc
  exact clampToImg_bounds W H start.1 start.2

theorem lasso_points_clamped_witness :
    (((3 : Int), (3 : Int)) ∈ lassoSession 3 3 (5, 7) []) ∧
    (0 ≤ (3 : Int) ∧ (3 : Int) ≤ ((3 : Nat) : Int) ∧
      0 ≤ (3 : Int) ∧ (3 : Int) ≤ ((3 : Nat) : Int)) :=
  ⟨by decide, lasso_points_clamped 3 3 (5, 7) [] ((3 : Int), (3 : Int)) (by decide)⟩

/-- Claim C1 (counterexample): dragging the w handle of bounds {10,10,20,20}
by dx = -15 on a 100×100 image commits the rectangle {0,10,35,20}, whose
east edge 0+35 = 35 differs from the original east edge 10+20 = 30 — so a
w-handle drag CAN move the east edge, contradicting the claim that every
edge not named by the handle keeps its position. -/
theorem handle_drag_west_moves_east_cex :
    handleMoveRect 100 100 ⟨10, 10, 20, 20⟩ HandleId.w (-15) 0 = some ⟨0, 10, 35, 20⟩ ∧
    ¬ ((0 : Int) + 35 = 10 + 20) := by
  decide

/-- Claim C1 (amended): for a handle drag from valid origBounds, the
committed rectangle moves exactly the edges named by the handle by the
pointer delta (clamped to the image with minimum size 1×1) and keeps every
other edge fixed, PROVIDED a w/n handle is not dragged past the left/top
image edge (origBounds.x + dx ≥ 0 when the handle names w, origBounds.y +
dy ≥ 0 when it names n); without that proviso the clamp at 0 grows the
rectangle so the opposite edge moves outward. -/
theorem handle_resize_edges (W H : Nat) (ob : Rect) (hid : HandleId) (dx dy : Int)
    (hx0 : 0 ≤ ob.x) (hy0 : 0 ≤ ob.y) (hw1 : 1 ≤ ob.w) (hh1 : 1 ≤ ob.h)
    (hxW : ob.x + ob.w ≤ (W : Int)) (hyH : ob.y + ob.h ≤ (H : Int))
    (hwest : hasW hid = true → 0 ≤ ob.x + dx)
    (hnorth : hasN hid = true → 0 ≤ ob.y + dy) :
    handleMoveRect W H ob hid dx dy =
      some ⟨(if hasW hid then min (ob.x + ob.w - 1) (ob.x + dx) else ob.x),
            (if hasN hid then min (ob.y + ob.h - 1) (ob.y + dy) else ob.y),
            (if hasE hid then min (W : Int) (max (ob.x + 1) (ob.x + ob.w + dx)) else ob.x + ob.w)
              - (if hasW hid then min (ob.x + ob.w - 1) (ob.x + dx) else ob.x),
            (if hasS hid then min (H : Int) (max (ob.y + 1) (ob.y + ob.h + dy)) else ob.y + ob.h)
              - (if hasN hid then min (ob.y + ob.h - 1) (ob.y + dy) else ob.y)⟩ := by
  cases hid
  case nw =>
    have hw := hwest rfl
    have hn := hnorth rfl
    simp only [handleMoveRect, hasW, hasE, hasN, hasS, if_true, if_false,
      Bool.false_eq_true, ite_true, ite_false]
    split_ifs with hg
    · simp only [Option.some.injEq, Rect.mk.injEq]
      omega
    · exfalso
      omega
  case n =>
    have hn := hnorth rfl
    simp only [handleMoveRect, hasW, hasE, hasN, hasS, if_true, if_false,
      Bool.false_eq_true, ite_true, ite_false]
    split_ifs with hg
    · simp only [Option.some.injEq, Rect.mk.injEq]
      omega
    · exfalso
      omega
  case ne =>
    have hn := hnorth rfl
    simp only [handleMoveRect, hasW, hasE, hasN, hasS, if_true, if_false,
      Bool.false_eq_true, ite_true, ite_false]
    split_ifs with hg
    · simp only [Option.some.injEq, Rect.mk.injEq]
      omega
    · exfalso
      omega
  case e =>
    simp only [handleMoveRect, hasW, hasE, hasN, hasS, if_true, if_false,
      Bool.false_eq_true, ite_true, ite_false]
    split_ifs with hg
    · simp only [Option.some.injEq, Rect.mk.injEq]
      omega
    · exfalso
      omega
  case se =>
    simp only [handleMoveRect, hasW, hasE, hasN, hasS, if_true, if_false,
      Bool.false_eq_true, ite_true, ite_false]
    split_ifs with hg
    · simp only [Option.some.injEq, Rect.mk.injEq]
      omega
    · exfalso
      omega
  case s =>
    simp only [handleMoveRect, hasW, hasE, hasN, hasS, if_true, if_false,
      Bool.false_eq_true, ite_true, ite_false]
    split_ifs with hg
    · simp only [Option.some.injEq, Rect.mk.injEq]
      omega
    · exfalso
      omega
  case sw =>
    have hw := hwest rfl
    simp only [handleMoveRect, hasW, hasE, hasN, hasS, if_true, if_false,
      Bool.false_eq_true, ite_true, ite_false]
    split_ifs with hg
    · simp only [Option.some.injEq, Rect.mk.injEq]
      omega
    · exfalso
      omega
  case w =>
    have hw := hwest rfl
    simp only [handleMoveRect, hasW, hasE, hasN, hasS, if_true, if_false,
      Bool.false_eq_true, ite_true, ite_false]
    split_ifs with hg
    · simp only [Option.some.injEq, Rect.mk.injEq]
      omega
    · exfalso
      omega

theorem handle_resize_edges_witness :
    ((0 : Int) ≤ 10 ∧ (10 : Int) + 20 ≤ ((100 : Nat) : Int)) ∧
    handleMoveRect 100 100 ⟨10, 10, 20, 20⟩ HandleId.e 5 0 = some ⟨10, 10, 25, 20⟩ := by
  refine ⟨⟨by decide, by decide⟩, ?_⟩
  have h := handle_resize_edges 100 100 ⟨10, 10, 20, 20⟩ HandleId.e 5 0
    (by decide) (by decide) (by decide) (by decide) (by decide) (by decide)
    (by decide) (by decide)
  exact h

/-- Claim C2 (counterexample): extraction composites the mask with
destination-in, which multiplies alphas; at source alpha 128 and mask
coverage 128 the output alpha is 64, not min(128,128) = 128. -/
theorem extract_alpha_not_min_cex :
    (cropAlpha ⟨1, 1, fun _ _ => 128⟩ ⟨1, 1, fun _ _ => 128⟩ ⟨0, 0, 1, 1⟩).alpha 0 0 = 64 ∧
    ¬ (cropAlpha ⟨1, 1, fun _ _ => 128⟩ ⟨1, 1, fun _ _ => 128⟩ ⟨0, 0, 1, 1⟩).alpha 0 0 =
      min 128 128 := by
  decide

/-- Claim C2 (amended): inside the bounds, extraction sets each output
alpha to round(source_alpha · mask_alpha / 255) (Porter-Duff
destination-in).  This equals min(source_alpha, mask_coverage) whenever the
mask pixel is fully off (0) or fully on (255); in particular every pixel
outside the mask but inside the bounding box becomes fully transparent. -/
theorem extract_alpha_destination_in (image mask : Raster) (b : Rect) (i j : Nat)
    (ha : srcAlphaAt image (b.x + i) (b.y + j) ≤ 255) :
    (cropAlpha image mask b).alpha i j =
      mulAlpha (srcAlphaAt image (b.x + i) (b.y + j)) (srcAlphaAt mask (b.x + i) (b.y + j)) ∧
    (srcAlphaAt mask (b.x + i) (b.y + j) = 0 → (cropAlpha image mask b).alpha i j = 0) ∧
    (srcAlphaAt mask (b.x + i) (b.y + j) = 255 →
      (cropAlpha image mask b).alpha i j =
        min (srcAlphaAt image (b.x + i) (b.y + j)) (srcAlphaAt mask (b.x + i) (b.y + j))) := by
  refine ⟨rfl, ?_, ?_⟩
  · intro h0
    show mulAlpha _ _ = 0
    rw [h0, mulAlpha_zero]
  · intro h255
    show mulAlpha _ _ = _
    rw [h255, mulAlpha_full]
    omega

theorem extract_alpha_destination_in_witness :
    (srcAlphaAt ⟨1, 1, fun _ _ => 200⟩ ((0 : Int) + (0 : Nat)) ((0 : Int) + (0 : Nat)) ≤ 255) ∧
    ((cropAlpha ⟨1, 1, fun _ _ => 200⟩ ⟨1, 1, fun _ _ => 255⟩ ⟨0, 0, 1, 1⟩).alpha 0 0 =
        mulAlpha (srcAlphaAt ⟨1, 1, fun _ _ => 200⟩ ((0 : Int) + (0 : Nat)) ((0 : Int) + (0 : Nat)))
          (srcAlphaAt ⟨1, 1, fun _ _ => 255⟩ ((0 : Int) + (0 : Nat)) ((0 : Int) + (0 : Nat))) ∧
      (srcAlphaAt ⟨1, 1, fun _ _ => 255⟩ ((0 : Int) + (0 : Nat)) ((0 : Int) + (0 : Nat)) = 0 →
        (cropAlpha ⟨1, 1, fun _ _ => 200⟩ ⟨1, 1, fun _ _ => 255⟩ ⟨0, 0, 1, 1⟩).alpha 0 0 = 0) ∧
      (srcAlphaAt ⟨1, 1, fun _ _ => 255⟩ ((0 : Int) + (0 : Nat)) ((0 : Int) + (0 : Nat)) = 255 →
        (cropAlpha ⟨1, 1, fun _ _ => 200⟩ ⟨1, 1, fun _ _ => 255⟩ ⟨0, 0, 1, 1⟩).alpha 0 0 =
          min (srcAlphaAt ⟨1, 1, fun _ _ => 200⟩ ((0 : Int) + (0 : Nat)) ((0 : Int) + (0 : Nat)))
            (srcAlphaAt ⟨1, 1, fun _ _ => 255⟩ ((0 : Int) + (0 : Nat)) ((0 : Int) + (0 : Nat))))) :=
  ⟨by decide,
    extract_alpha_destination_in ⟨1, 1, fun _ _ => 200⟩ ⟨1, 1, fun _ _ => 255⟩
      ⟨0, 0, 1, 1⟩ 0 0 (by decide)⟩

/-- Claim C6: computeBounds returns the tight axis-aligned bounding box
(x = minX, y = minY, w = maxX−minX+1, h = maxY−minY+1 over all pixels with
coverage > 0), and returns none exactly when the mask has zero selected
pixels. -/
theorem computeBounds_tight_bbox (m : Raster) :
    (computeBounds m = none ↔ onSet m = ∅) ∧
    tightFor (computeBounds m) (onSet m) :=
  computeBounds_spec m

/-- Claim C7: for a mask with 0 < max(w,h) ≤ 512, the boundary tracer runs
at scale factor exactly 1 (no downsampling), and a segment is emitted iff
it is a side of an on-pixel whose 4-neighbor on that side is off or out of
bounds. -/
theorem outline_full_res_under_cap (m : Raster)
    (hpos : 0 < max m.w m.h) (hcap : max m.w m.h ≤ MAX_TRACE) :
    traceScale m = 1 ∧
    buildMaskOutlinePath m = some (traceSegs (maskOn m) m.w m.h 1) ∧
    (∀ s : Seg, s ∈ traceSegs (maskOn m) m.w m.h 1 ↔
      ∃ x y : Nat, maskOn m (x : Int) (y : Int) = true ∧
        ((maskOn m (x : Int) ((y : Int) - 1) = false ∧
            s = (((x : Rat), (y : Rat)), ((x : Rat) + 1, (y : Rat)))) ∨
         (maskOn m (x : Int) ((y : Int) + 1) = false ∧
            s = (((x : Rat), (y : Rat) + 1), ((x : Rat) + 1, (y : Rat) + 1))) ∨
         (maskOn m ((x : Int) - 1) (y : Int) = false ∧
            s = (((x : Rat), (y : Rat)), ((x : Rat), (y : Rat) + 1))) ∨
         (maskOn m ((x : Int) + 1) (y : Int) = false ∧
            s = (((x : Rat) + 1, (y : Rat)), ((x : Rat) + 1, (y : Rat) + 1))))) := by
  have hts := traceScale_eq_one hpos hcap
  refine ⟨hts, ?_, ?_⟩
  · unfold buildMaskOutlinePath
    rw [hts]
    norm_num
  · intro s
    rw [mem_traceSegs]
    constructor
    · rintro ⟨⟨x, y⟩, hmem, hseg⟩
      rw [mem_pixelSegs] at hseg
      obtain ⟨hon, hd⟩ := hseg
      exact ⟨x, y, hon, by simpa [mul_one] using hd⟩
    · rintro ⟨x, y, hon, hd⟩
      have hb := maskOn_bounds hon
      refine ⟨(x, y), mem_coordList.mpr ⟨hb.1, hb.2⟩, ?_⟩
      rw [mem_pixelSegs]
      exact ⟨hon, by simpa [mul_one] using hd⟩

theorem outline_full_res_under_cap_witness :
    (0 < max 1 1 ∧ max 1 1 ≤ MAX_TRACE) ∧
    (traceScale ⟨1, 1, fun _ _ => 255⟩ = 1 ∧
      buildMaskOutlinePath ⟨1, 1, fun _ _ => 255⟩ =
        some (traceSegs (maskOn ⟨1, 1, fun _ _ => 255⟩) 1 1 1) ∧
      (∀ s : Seg, s ∈ traceSegs (maskOn ⟨1, 1, fun _ _ => 255⟩) 1 1 1 ↔
        ∃ x y : Nat, maskOn ⟨1, 1, fun _ _ => 255⟩ (x : Int) (y : Int) = true ∧
          ((maskOn ⟨1, 1, fun _ _ => 255⟩ (x : Int) ((y : Int) - 1) = false ∧
              s = (((x : Rat), (y : Rat)), ((x : Rat) + 1, (y : Rat)))) ∨
           (maskOn ⟨1, 1, fun _ _ => 255⟩ (x : Int) ((y : Int) + 1) = false ∧
              s = (((x : Rat), (y : Rat) + 1), ((x : Rat) + 1, (y : Rat) + 1))) ∨
           (maskOn ⟨1, 1, fun _ _ => 255⟩ ((x : Int) - 1) (y : Int) = false ∧
              s = (((x : Rat), (y : Rat)), ((x : Rat), (y : Rat) + 1))) ∨
           (maskOn ⟨1, 1, fun _ _ => 255⟩ ((x : Int) + 1) (y : Int) = false ∧
              s = (((x : Rat) + 1, (y : Rat)), ((x : Rat) + 1, (y : Rat) + 1)))))) :=
  ⟨⟨by decide, by decide⟩,
    outline_full_res_under_cap ⟨1, 1, fun _ _ => 255⟩ (by decide) (by decide)⟩

/-- Claim C8: with the source image and mask present, extraction returns
none exactly when there is no selection (bounds is none); and when bounds
exist but the alpha intersection leaves no opaque pixel, extraction returns
the untrimmed fully transparent cropped buffer of the bounds' dimensions
rather than none. -/
theorem extract_none_iff_no_selection (img msk : Raster) (ob : Option Rect) :
    (doExtract (some img) (some msk) ob = none ↔ ob = none) ∧
    (∀ b : Rect, ob = some b →
      (∀ i, i < b.w.toNat → ∀ j, j < b.h.toNat → (cropAlpha img msk b).alpha i j = 0) →
      doExtract (some img) (some msk) ob = some (cropAlpha img msk b) ∧
      (cropAlpha img msk b).w = b.w.toNat ∧ (cropAlpha img msk b).h = b.h.toNat) := by
  constructor
  · cases ob with
    | none => simp [doExtract]
    | some b => simp [doExtract]
  · intro b hb hblank
    subst hb
    have htrim : trimTransparent (cropAlpha img msk b) = none := by
      rw [trimTransparent_none_iff]
      intro x hx y hy
      exact hblank x hx y hy
    refine ⟨?_, rfl, rfl⟩
    show some (extractThroughMask img msk b) = _
    rw [extractThroughMask_eq, htrim]

theorem extract_none_iff_no_selection_witness :
    (∀ i, i < (2 : Int).toNat → ∀ j, j < (2 : Int).toNat →
      (cropAlpha ⟨2, 2, fun _ _ => 0⟩ ⟨2, 2, fun _ _ => 0⟩ ⟨0, 0, 2, 2⟩).alpha i j = 0) ∧
    (doExtract (some ⟨2, 2, fun _ _ => 0⟩) (some ⟨2, 2, fun _ _ => 0⟩) (some ⟨0, 0, 2, 2⟩) =
        some (cropAlpha ⟨2, 2, fun _ _ => 0⟩ ⟨2, 2, fun _ _ => 0⟩ ⟨0, 0, 2, 2⟩) ∧
      (cropAlpha ⟨2, 2, fun _ _ => 0⟩ ⟨2, 2, fun _ _ => 0⟩ ⟨0, 0, 2, 2⟩).w = (2 : Int).toNat ∧
      (cropAlpha ⟨2, 2, fun _ _ => 0⟩ ⟨2, 2, fun _ _ => 0⟩ ⟨0, 0, 2, 2⟩).h = (2 : Int).toNat) :=
  ⟨by decide,
    (extract_none_iff_no_selection ⟨2, 2, fun _ _ => 0⟩ ⟨2, 2, fun _ _ => 0⟩
        (some ⟨0, 0, 2, 2⟩)).2 ⟨0, 0, 2, 2⟩ rfl (by decide)⟩

end Splitter
